import Mathlib

/-!
# Iterative SAXPY with a partitioned worker pool (`src/saxpy-p.c`)

A shallow embedding of `saxpy_setup` and `saxpy_thread`.

* C `int` values are integers of `Int`; `/` on `int` is truncating division, `Int.tdiv`.
  Every product the partition forms lies in `[0, p]` (`setup_products_bounded`). The index
  into the table is formed on `int` by the source; `cell_int` is that computation, undefined
  on overflow, and it gives the integer index `cell` whenever the number of table cells
  `n_threads * max_iters` is an `int` (`cell_int_eq`). The memory model uses `cell`.
* C `double` values are the elements of an arbitrary type `α` carrying `0`, `+`, `*`, `/`
  and the conversion from `int`; no algebraic law is assumed unless a theorem asks for one,
  so the order of every floating-point operation of the source is kept.
* The four memory objects the core touches (`X`, `Y`, the caller's `Y_avgs` and the
  `partial_sums` block obtained from `malloc`) are maps from an `int` index to a value.
  A pointer into `partial_sums` is the index it points at.
* A `for (int i = lo; i < hi; i++)` loop is `forLoop lo hi`.
* Threads run to completion one after the other; `saxpy_setup` runs them in creation order
  and `saxpy_setup_sched` in any given order.
-/

set_option autoImplicit false

namespace Saxpy

/-! ## Memory and loops -/

/-- The memory objects of the core: the vectors `X` and `Y`, the caller's `Y_avgs` array and
the `partial_sums` block allocated by `saxpy_setup`. -/
@[ext]
structure Mem (α : Type) where
  X : Int → α
  Y : Int → α
  Y_avgs : Int → α
  partial_sums : Int → α

/-- The assignment `arr[i] = v`. -/
def store {α : Type} (arr : Int → α) (i : Int) (v : α) : Int → α :=
  fun j => if j = i then v else arr j

/-- The loop `for (int i = lo; i < hi; i++) st = body i st`. -/
def forLoop {σ : Type} (lo hi : Int) (body : Int → σ → σ) (st : σ) : σ :=
  (List.range (hi - lo).toNat).foldl (fun s (j : Nat) => body (lo + (j : Int)) s) st

/-- The `struct saxpy_args` handed to a worker. The fields `X` and `Y` of the source point at
the shared vectors of `Mem`; `Y_avgs` points into `partial_sums` and is kept as the index of
the cell it points at. -/
structure saxpy_args (α : Type) where
  Y_avgs : Int
  a : α
  max_iters : Int
  start_pos : Int
  end_pos : Int

/-! ## The worker, `saxpy_thread` -/

section Worker

variable {α : Type} [Zero α] [Add α] [Mul α]

/-- The body of the index loop of `saxpy_thread`:
`Y[i] = Y[i] + a * X[i]; sum += Y[i];`. The state is the memory and `sum`. -/
def saxpy_thread_index (a : α) (i : Int) (st : Mem α × α) : Mem α × α :=
  let Y1 := store st.1.Y i (st.1.Y i + a * st.1.X i)
  ({ st.1 with Y := Y1 }, st.2 + Y1 i)

/-- The body of the iteration loop of `saxpy_thread`: `sum = 0.0`, the index loop over
`[start_pos, end_pos)`, then `Y_avgs[it] = sum`. -/
def saxpy_thread_iter (args : saxpy_args α) (it : Int) (mem : Mem α) : Mem α :=
  let r := forLoop args.start_pos args.end_pos (saxpy_thread_index args.a) (mem, 0)
  { r.1 with partial_sums := store r.1.partial_sums (args.Y_avgs + it) r.2 }

/-- The worker `saxpy_thread`, as the memory it leaves behind. -/
def saxpy_thread (args : saxpy_args α) (mem : Mem α) : Mem α :=
  forLoop 0 args.max_iters (saxpy_thread_iter args) mem

end Worker

/-! ## The coordinator, `saxpy_setup` -/

/-- The value `args[i].start_pos = i * (p / n_threads)`. -/
def setup_start_pos (p n_threads i : Int) : Int :=
  i * (p.tdiv n_threads)

/-- The value of `args[i].end_pos`: `(i + 1) * (p / n_threads)`, overwritten by `p` when
`i == n_threads - 1`. -/
def setup_end_pos (p n_threads i : Int) : Int :=
  if i = n_threads - 1 then p else (i + 1) * (p.tdiv n_threads)

/-- The index `i * max_iters + it` of cell `(i, it)` in the flat `partial_sums` block, as an
integer. The source forms it on `int` (see `cell_int`); the two agree whenever the number of
cells `n_threads * max_iters` is an `int` (`cell_int_eq`). -/
def cell (max_iters i it : Int) : Int :=
  i * max_iters + it

section Coordinator

variable {α : Type} [Zero α] [Add α] [Mul α] [Div α] [IntCast α]

/-- The arguments `args[i]` that `saxpy_setup` fills in for worker `i`. -/
def setup_args_at (a : α) (p max_iters n_threads i : Int) : saxpy_args α :=
  { Y_avgs := i * max_iters
    a := a
    max_iters := max_iters
    start_pos := setup_start_pos p n_threads i
    end_pos := setup_end_pos p n_threads i }

/-- The workers created by the first loop of `saxpy_setup`, in creation order. -/
def setup_args (a : α) (p max_iters n_threads : Int) : List (saxpy_args α) :=
  (List.range n_threads.toNat).map (fun (i : Nat) => setup_args_at a p max_iters n_threads (i : Int))

/-- The given workers run to completion one after the other, up to the join. -/
def run_workers (order : List (saxpy_args α)) (mem : Mem α) : Mem α :=
  order.foldl (fun m w => saxpy_thread w m) mem

/-- The value of `aux` after `aux = 0; for i: aux += partial_sums[i * max_iters + it];`. -/
def setup_aux (max_iters n_threads it : Int) (partial_sums : Int → α) : α :=
  forLoop 0 n_threads (fun i aux => aux + partial_sums (cell max_iters i it)) 0

/-- The body of the reduction loop of `saxpy_setup`: the loop computing `aux`, then
`Y_avgs[it] = aux / p`. -/
def setup_reduce_iter (p max_iters n_threads it : Int) (mem : Mem α) : Mem α :=
  { mem with
    Y_avgs := store mem.Y_avgs it (setup_aux max_iters n_threads it mem.partial_sums / (p : α)) }

/-- The reduction loop of `saxpy_setup`. -/
def setup_reduce (p max_iters n_threads : Int) (mem : Mem α) : Mem α :=
  forLoop 0 max_iters (setup_reduce_iter p max_iters n_threads) mem

/-- The function `saxpy_setup` with the workers run in the given order: the workers, the join,
then the reduction. `heap` is the content of the block `malloc` returns. -/
def saxpy_setup_sched (order : List (saxpy_args α)) (X Y Y_avgs : Int → α)
    (p max_iters n_threads : Int) (heap : Int → α) : Mem α :=
  setup_reduce p max_iters n_threads
    (run_workers order { X := X, Y := Y, Y_avgs := Y_avgs, partial_sums := heap })

/-- The function `saxpy_setup`, as the memory just before `free(partial_sums)`, for
`n_threads ≥ 1`. With `n_threads ≤ 0` the arrays `threads[n_threads]` and `args[n_threads]`
have a size that is not positive and the call has no defined meaning in C; no statement
below relies on the value of this function there. -/
def saxpy_setup (X Y Y_avgs : Int → α) (a : α) (p max_iters n_threads : Int)
    (heap : Int → α) : Mem α :=
  saxpy_setup_sched (setup_args a p max_iters n_threads) X Y Y_avgs p max_iters n_threads heap

end Coordinator

/-! ## Option handling of `main` -/

/-- One result of `getopt` in the loop of `main`, with the value `strtol` gave once stored in
the `int` (for `-s`, `unsigned int`) variable; `missing_value` is `':'` and `unknown` is
`'?'`. -/
inductive Opt where
  | p (v : Int)
  | s (v : Int)
  | n (v : Int)
  | i (v : Int)
  | missing_value
  | unknown
  deriving DecidableEq

/-- The command-line parameters of `main`. -/
structure Config where
  seed : Int
  p : Int
  n_threads : Int
  max_iters : Int
  deriving DecidableEq

/-- The initial values of `seed`, `p`, `n_threads` and `max_iters` in `main`. -/
def main_defaults : Config :=
  { seed := 1, p := 10000000, n_threads := 2, max_iters := 1000 }

/-- One round of the `switch` of `main`. The result is `none` when the process ends there:
the `assert` of case `'p'` fails, or case `'?'` calls `exit(EXIT_FAILURE)`. -/
def main_switch (c : Config) : Opt → Option Config
  | Opt.p v => if 0 < v ∧ v ≤ 2147483647 then some { c with p := v } else none
  | Opt.s v => some { c with seed := v }
  | Opt.n v => some { c with n_threads := v }
  | Opt.i v => some { c with max_iters := v }
  | Opt.missing_value => some c
  | Opt.unknown => none

/-- The option loop of `main`: the parameters with which `main` goes on to allocate the
vectors and call `saxpy_setup`, or `none` when the process ended in the loop. -/
def main_getopt (opts : List Opt) : Option Config :=
  opts.foldlM main_switch main_defaults

/-! ## The sequential reference -/

section Reference

variable {α : Type} [Zero α] [Add α] [Mul α] [Div α] [IntCast α]

/-- Sequential reference, index step: `Y[i] = Y[i] + a * X[i]`, the updated value being
accumulated into `sum`. The state is `Y` and `sum`. -/
def saxpy_seq_index (X : Int → α) (a : α) (i : Int) (st : (Int → α) × α) : (Int → α) × α :=
  let Y1 := store st.1 i (st.1 i + a * X i)
  (Y1, st.2 + Y1 i)

/-- Sequential reference, pass `t`: a sum started at 0, the index steps for `i = 0..p-1` in
ascending order, then `Y_avgs[t] = sum / p`. The state is `Y` and `Y_avgs`. -/
def saxpy_seq_iter (X : Int → α) (a : α) (p t : Int) (st : (Int → α) × (Int → α)) :
    (Int → α) × (Int → α) :=
  let r := forLoop 0 p (saxpy_seq_index X a) (st.1, 0)
  (r.1, store st.2 t (r.2 / (p : α)))

/-- The straightforward sequential reference of the sequential-equivalence property: the
passes `t = 0..max_iters-1` in order. It returns `Y` and `Y_avgs`. -/
def saxpy_seq (X Y Y_avgs : Int → α) (a : α) (p max_iters : Int) : (Int → α) × (Int → α) :=
  forLoop 0 max_iters (saxpy_seq_iter X a p) (Y, Y_avgs)

end Reference

/-! ## Arithmetic on `int` -/

/-- The product `a * b` of two `int` values: `none` when it leaves the range of `int`, where
C leaves the behaviour undefined. -/
def int_mul (a b : Int) : Option Int :=
  if -2147483648 ≤ a * b ∧ a * b ≤ 2147483647 then some (a * b) else none

/-- The sum `a + b` of two `int` values: `none` when it leaves the range of `int`. -/
def int_add (a b : Int) : Option Int :=
  if -2147483648 ≤ a + b ∧ a + b ≤ 2147483647 then some (a + b) else none

/-- The index `i * max_iters + it` as the source computes it, on `int`
(`partial_sums[i * max_iters + it]`, and `&partial_sums[i * max_iters]` followed by
`Y_avgs[it]` in the worker). -/
def cell_int (max_iters i it : Int) : Option Int :=
  (int_mul i max_iters).bind (fun r => int_add r it)

/-! ## An arithmetic with a negative zero -/

/-- Five classes of values, with two zeros: `pz` is `+0`, `nz` is `-0`. -/
inductive Sign5 where
  | pz
  | nz
  | pos
  | neg
  | nan
  deriving DecidableEq

/-- Addition on `Sign5`; as for doubles rounded to nearest, a sum is `-0` only when both
operands are `-0`, and `+0 + -0 = +0`. -/
def Sign5.add : Sign5 → Sign5 → Sign5
  | Sign5.nan, _ => Sign5.nan
  | _, Sign5.nan => Sign5.nan
  | Sign5.nz, Sign5.nz => Sign5.nz
  | Sign5.pz, Sign5.pz => Sign5.pz
  | Sign5.pz, Sign5.nz => Sign5.pz
  | Sign5.nz, Sign5.pz => Sign5.pz
  | Sign5.pos, Sign5.neg => Sign5.pz
  | Sign5.neg, Sign5.pos => Sign5.pz
  | Sign5.pos, _ => Sign5.pos
  | _, Sign5.pos => Sign5.pos
  | Sign5.neg, _ => Sign5.neg
  | _, Sign5.neg => Sign5.neg

/-- Multiplication on `Sign5`, by the rule of signs. -/
def Sign5.mul : Sign5 → Sign5 → Sign5
  | Sign5.nan, _ => Sign5.nan
  | _, Sign5.nan => Sign5.nan
  | Sign5.pz, Sign5.pz => Sign5.pz
  | Sign5.pz, Sign5.pos => Sign5.pz
  | Sign5.pos, Sign5.pz => Sign5.pz
  | Sign5.nz, Sign5.nz => Sign5.pz
  | Sign5.nz, Sign5.neg => Sign5.pz
  | Sign5.neg, Sign5.nz => Sign5.pz
  | Sign5.pz, _ => Sign5.nz
  | _, Sign5.pz => Sign5.nz
  | Sign5.nz, _ => Sign5.nz
  | _, Sign5.nz => Sign5.nz
  | Sign5.pos, Sign5.pos => Sign5.pos
  | Sign5.neg, Sign5.neg => Sign5.pos
  | Sign5.pos, Sign5.neg => Sign5.neg
  | Sign5.neg, Sign5.pos => Sign5.neg

/-- Division on `Sign5`: the rule of signs, a division by a zero giving `nan`. -/
def Sign5.div (x : Sign5) : Sign5 → Sign5
  | Sign5.pz => Sign5.nan
  | Sign5.nz => Sign5.nan
  | y => Sign5.mul x y

/-- The class of the double an `int` converts to. -/
def Sign5.ofInt (n : Int) : Sign5 :=
  if n = 0 then Sign5.pz else if 0 < n then Sign5.pos else Sign5.neg

instance : Zero Sign5 := ⟨Sign5.pz⟩

instance : Add Sign5 := ⟨Sign5.add⟩

instance : Mul Sign5 := ⟨Sign5.mul⟩

instance : Div Sign5 := ⟨Sign5.div⟩

instance : IntCast Sign5 := ⟨Sign5.ofInt⟩

/-! ## Quantities the claims speak of -/

section Quantities

variable {α : Type} [Zero α] [Add α] [Mul α]

/-- The value `Y[i]` holds after `t` applications of `Y[i] = Y[i] + a * X[i]`. -/
def pass (X : Int → α) (a : α) (t : Nat) (Y : Int → α) (i : Int) : α :=
  (fun y => y + a * X i)^[t] (Y i)

/-- The sum `((0 + f lo) + f (lo + 1)) + ...` over `[lo, hi)`, in ascending order. -/
def range_sum (lo hi : Int) (f : Int → α) : α :=
  forLoop lo hi (fun i s => s + f i) 0

/-- The length `end_pos - start_pos` of the range of worker `i`. -/
def setup_len (p n_threads i : Int) : Int :=
  setup_end_pos p n_threads i - setup_start_pos p n_threads i

end Quantities

/-! ## The partition -/

theorem tdiv_bounds (p n : Int) (hp : 1 ≤ p) (hn : 1 ≤ n) :
    0 ≤ p.tdiv n ∧ n * p.tdiv n ≤ p ∧ p < n * p.tdiv n + n := by
  have h0 : (0 : Int) ≤ p := by omega
  have h1 : (0 : Int) ≤ n := by omega
  rw [Int.tdiv_eq_ediv h0 h1]
  have h2 := Int.emod_add_ediv p n
  have h3 := Int.emod_nonneg p (show n ≠ 0 by omega)
  have h4 := Int.emod_lt_of_pos p (show 0 < n by omega)
  refine ⟨Int.ediv_nonneg h0 h1, ?_, ?_⟩ <;> omega

theorem seg_start_nonneg (p n k : Int) (hp : 1 ≤ p) (hn : 1 ≤ n) (hk : 0 ≤ k) :
    0 ≤ setup_start_pos p n k := by
  obtain ⟨hq, -, -⟩ := tdiv_bounds p n hp hn
  exact mul_nonneg hk hq

theorem seg_end_le (p n k : Int) (hp : 1 ≤ p) (hn : 1 ≤ n) (hk : k < n) :
    setup_end_pos p n k ≤ p := by
  obtain ⟨hq, hle, -⟩ := tdiv_bounds p n hp hn
  unfold setup_end_pos
  split
  · exact le_refl p
  · have h1 : (k + 1) * p.tdiv n ≤ n * p.tdiv n :=
      mul_le_mul_of_nonneg_right (by omega) hq
    omega

/-- The two products `i * (p / n)` and `(i + 1) * (p / n)` that `saxpy_setup` forms for
worker `i`, the second also for the last worker, lie between 0 and `p`. -/
theorem setup_products_bounded (p n i : Int) (hp : 1 ≤ p) (hn : 1 ≤ n) (hi0 : 0 ≤ i)
    (hi : i < n) :
    (0 ≤ i * p.tdiv n ∧ i * p.tdiv n ≤ p) ∧
    (0 ≤ (i + 1) * p.tdiv n ∧ (i + 1) * p.tdiv n ≤ p) := by
  obtain ⟨hq, hle, -⟩ := tdiv_bounds p n hp hn
  have h1 : i * p.tdiv n ≤ n * p.tdiv n := mul_le_mul_of_nonneg_right (by omega) hq
  have h2 : (i + 1) * p.tdiv n ≤ n * p.tdiv n := mul_le_mul_of_nonneg_right (by omega) hq
  have h3 : 0 ≤ i * p.tdiv n := mul_nonneg hi0 hq
  have h4 : 0 ≤ (i + 1) * p.tdiv n := mul_nonneg (by omega) hq
  omega

theorem seg_start_le_end (p n k : Int) (hp : 1 ≤ p) (hn : 1 ≤ n) :
    setup_start_pos p n k ≤ setup_end_pos p n k := by
  obtain ⟨hq, hle, -⟩ := tdiv_bounds p n hp hn
  unfold setup_end_pos setup_start_pos
  split
  · have h1 : k * p.tdiv n ≤ n * p.tdiv n :=
      mul_le_mul_of_nonneg_right (by omega) hq
    omega
  · have h1 : (k + 1) * p.tdiv n = k * p.tdiv n + p.tdiv n := by ring
    omega

theorem seg_end_le_start (p n k₁ k₂ : Int) (hp : 1 ≤ p) (hn : 1 ≤ n) (h12 : k₁ < k₂)
    (h2 : k₂ < n) : setup_end_pos p n k₁ ≤ setup_start_pos p n k₂ := by
  obtain ⟨hq, -, -⟩ := tdiv_bounds p n hp hn
  unfold setup_end_pos setup_start_pos
  rw [if_neg (by omega)]
  exact mul_le_mul_of_nonneg_right (by omega) hq

theorem seg_disjoint (p n k₁ k₂ i : Int) (hp : 1 ≤ p) (hn : 1 ≤ n)
    (h1 : k₁ < n) (h2 : k₂ < n) (hne : k₁ ≠ k₂)
    (hi1 : setup_start_pos p n k₁ ≤ i ∧ i < setup_end_pos p n k₁)
    (hi2 : setup_start_pos p n k₂ ≤ i ∧ i < setup_end_pos p n k₂) : False := by
  rcases lt_or_gt_of_ne hne with h | h
  · have := seg_end_le_start p n k₁ k₂ hp hn h h2
    omega
  · have := seg_end_le_start p n k₂ k₁ hp hn h h1
    omega

theorem seg_exists (p n i : Int) (hp : 1 ≤ p) (hn : 1 ≤ n) (hi0 : 0 ≤ i) (hip : i < p) :
    ∃ k : Int, (0 ≤ k ∧ k < n) ∧ setup_start_pos p n k ≤ i ∧ i < setup_end_pos p n k := by
  obtain ⟨hq, hle, -⟩ := tdiv_bounds p n hp hn
  by_cases hlast : (n - 1) * p.tdiv n ≤ i
  · refine ⟨n - 1, ⟨by omega, by omega⟩, hlast, ?_⟩
    unfold setup_end_pos
    rw [if_pos rfl]
    exact hip
  · have hqpos : 0 < p.tdiv n := by
      rcases hq.lt_or_eq with h | h
      · exact h
      · rw [← h] at hlast
        simp at hlast
        omega
    have hk0 : 0 ≤ i / p.tdiv n := Int.ediv_nonneg hi0 hq
    have hmd := Int.emod_add_ediv i (p.tdiv n)
    have hm0 := Int.emod_nonneg i (ne_of_gt hqpos)
    have hm1 := Int.emod_lt_of_pos i hqpos
    have hklt : i / p.tdiv n < n - 1 := by
      by_contra hge
      have : (n - 1) * p.tdiv n ≤ (i / p.tdiv n) * p.tdiv n :=
        mul_le_mul_of_nonneg_right (by omega) hq
      have hc : (i / p.tdiv n) * p.tdiv n = p.tdiv n * (i / p.tdiv n) := by ring
      omega
    refine ⟨i / p.tdiv n, ⟨hk0, by omega⟩, ?_, ?_⟩
    · unfold setup_start_pos
      have hc : (i / p.tdiv n) * p.tdiv n = p.tdiv n * (i / p.tdiv n) := by ring
      omega
    · unfold setup_end_pos
      rw [if_neg (by omega)]
      have hc : (i / p.tdiv n + 1) * p.tdiv n = p.tdiv n * (i / p.tdiv n) + p.tdiv n := by ring
      omega

/-- C1. Partition coverage: for `p ≥ 1` and `n_workers ≥ 1` the ranges `[start_pos, end_pos)`
that `saxpy_setup` assigns start at 0, are well formed, are chained (`end_k = start_{k+1}`)
and finish at `p`; every index of `[0, p)` lies in the range of exactly one worker and no
range holds an index outside `[0, p)`. -/
theorem partition_coverage (p n_workers : Int) (hp : 1 ≤ p) (hn : 1 ≤ n_workers) :
    setup_start_pos p n_workers 0 = 0 ∧
    (∀ k : Int, 0 ≤ k → k < n_workers →
      setup_start_pos p n_workers k ≤ setup_end_pos p n_workers k) ∧
    (∀ k : Int, 0 ≤ k → k < n_workers - 1 →
      setup_end_pos p n_workers k = setup_start_pos p n_workers (k + 1)) ∧
    setup_end_pos p n_workers (n_workers - 1) = p ∧
    (∀ i : Int, 0 ≤ i → i < p →
      ∃! k : Int, (0 ≤ k ∧ k < n_workers) ∧
        setup_start_pos p n_workers k ≤ i ∧ i < setup_end_pos p n_workers k) ∧
    (∀ k i : Int, 0 ≤ k → k < n_workers →
      setup_start_pos p n_workers k ≤ i → i < setup_end_pos p n_workers k →
      0 ≤ i ∧ i < p) := by
  refine ⟨by simp [setup_start_pos], ?_, ?_, by simp [setup_end_pos], ?_, ?_⟩
  · intro k _ hk
    exact seg_start_le_end p n_workers k hp hn
  · intro k _ hk
    unfold setup_end_pos setup_start_pos
    rw [if_neg (by omega)]
  · intro i hi0 hip
    obtain ⟨k, hk, hr⟩ := seg_exists p n_workers i hp hn hi0 hip
    refine ⟨k, ⟨hk, hr⟩, ?_⟩
    rintro k2 ⟨hk2, hr2⟩
    by_contra hne
    exact seg_disjoint p n_workers k2 k i hp hn hk2.2 hk.2 hne hr2 hr
  · intro k i hk0 hk hs he
    have h1 := seg_start_nonneg p n_workers k hp hn hk0
    have h2 := seg_end_le p n_workers k hp hn hk
    omega

/-- Witness for C1: `p = 7` split among 4 workers; index 5 has exactly one owner. -/
theorem partition_coverage_witness :
    (1 : Int) ≤ 7 ∧ (1 : Int) ≤ 4 ∧ setup_end_pos 7 4 (4 - 1) = 7 ∧
    ∃! k : Int, (0 ≤ k ∧ k < 4) ∧ setup_start_pos 7 4 k ≤ 5 ∧ 5 < setup_end_pos 7 4 k :=
  ⟨by decide, by decide,
    (partition_coverage 7 4 (by decide) (by decide)).2.2.2.1,
    (partition_coverage 7 4 (by decide) (by decide)).2.2.2.2.1 5 (by decide) (by decide)⟩

/-- C6, as stated, fails: with `p = 7` and 4 workers the last range has 4 indices and the
first has 1. -/
theorem near_equal_counterexample :
    ¬ (∀ k₁ k₂ : Int, 0 ≤ k₁ → k₁ < 4 → 0 ≤ k₂ → k₂ < 4 →
        setup_len 7 4 k₁ - setup_len 7 4 k₂ ≤ 1) := by
  intro h
  have h30 := h 3 0 (by decide) (by decide) (by decide) (by decide)
  revert h30
  decide

/-- C6, amended. For `p ≥ 1` and `n_workers ≥ 1` every worker but the last gets exactly
`p / n_workers` indices and the last gets `p / n_workers + p % n_workers`; the lengths of two
ranges differ by at most `p % n_workers`, which is at most `n_workers - 1`. -/
theorem partition_lengths (p n_workers : Int) (hp : 1 ≤ p) (hn : 1 ≤ n_workers) :
    (∀ k : Int, 0 ≤ k → k < n_workers - 1 → setup_len p n_workers k = p.tdiv n_workers) ∧
    setup_len p n_workers (n_workers - 1) = p.tdiv n_workers + p.tmod n_workers ∧
    (0 ≤ p.tmod n_workers ∧ p.tmod n_workers ≤ n_workers - 1) ∧
    (∀ k₁ k₂ : Int, 0 ≤ k₁ → k₁ < n_workers → 0 ≤ k₂ → k₂ < n_workers →
      setup_len p n_workers k₁ - setup_len p n_workers k₂ ≤ p.tmod n_workers) := by
  have hmd := Int.tmod_add_tdiv p n_workers
  have hm0 : 0 ≤ p.tmod n_workers := Int.tmod_nonneg n_workers (by omega)
  have hm1 : p.tmod n_workers < n_workers := Int.tmod_lt_of_pos p (by omega)
  have hmid : ∀ k : Int, k < n_workers - 1 → setup_len p n_workers k = p.tdiv n_workers := by
    intro k hk
    unfold setup_len setup_end_pos setup_start_pos
    rw [if_neg (by omega)]
    ring
  have hlast : setup_len p n_workers (n_workers - 1)
      = p.tdiv n_workers + p.tmod n_workers := by
    unfold setup_len setup_end_pos setup_start_pos
    rw [if_pos rfl]
    have hc : (n_workers - 1) * p.tdiv n_workers
        = n_workers * p.tdiv n_workers - p.tdiv n_workers := by ring
    omega
  refine ⟨fun k _ hk => hmid k hk, hlast, ⟨hm0, by omega⟩, ?_⟩
  intro k₁ k₂ _ h1 _ h2
  have e : ∀ k : Int, k < n_workers →
      setup_len p n_workers k = p.tdiv n_workers ∨
      setup_len p n_workers k = p.tdiv n_workers + p.tmod n_workers := by
    intro k hk
    by_cases hkl : k = n_workers - 1
    · right
      rw [hkl]
      exact hlast
    · left
      exact hmid k (by omega)
  rcases e k₁ h1 with a | a <;> rcases e k₂ h2 with b | b <;> omega

/-- Witness for C6 as amended: `p = 7` split among 4 workers, the last range has
`7 / 4 + 7 % 4 = 4` indices. -/
theorem partition_lengths_witness :
    (1 : Int) ≤ 7 ∧ (1 : Int) ≤ 4 ∧
    setup_len 7 4 (4 - 1) = (7 : Int).tdiv 4 + (7 : Int).tmod 4 :=
  ⟨by decide, by decide, (partition_lengths 7 4 (by decide) (by decide)).2.1⟩

/-! ## The worker in closed form -/

section PassFacts

variable {α : Type} [Add α] [Mul α]

theorem pass_zero (X : Int → α) (a : α) (Y : Int → α) (i : Int) : pass X a 0 Y i = Y i := rfl

theorem pass_succ (X : Int → α) (a : α) (t : Nat) (Y : Int → α) (i : Int) :
    pass X a (t + 1) Y i = pass X a t Y i + a * X i := by
  unfold pass
  rw [Function.iterate_succ_apply']

theorem pass_congr (X : Int → α) (a : α) (t : Nat) (Y Y' : Int → α) (i : Int)
    (h : Y' i = Y i) : pass X a t Y' i = pass X a t Y i := by
  unfold pass
  rw [h]

end PassFacts

section RangeSumFacts

variable {α : Type} [Zero α] [Add α]

theorem range_sum_eq (lo hi : Int) (f : Int → α) :
    range_sum lo hi f
      = (List.range (hi - lo).toNat).foldl (fun s (j : Nat) => s + f (lo + (j : Int))) 0 := rfl

theorem range_sum_congr (lo hi : Int) (f g : Int → α)
    (h : ∀ i, lo ≤ i → i < hi → f i = g i) : range_sum lo hi f = range_sum lo hi g := by
  rw [range_sum_eq, range_sum_eq]
  apply List.foldl_ext
  intro s j hj
  rw [List.mem_range] at hj
  rw [h (lo + (j : Int)) (by omega) (by omega)]

theorem range_sum_empty (lo hi : Int) (f : Int → α) (h : hi ≤ lo) : range_sum lo hi f = 0 := by
  rw [range_sum_eq]
  have : (hi - lo).toNat = 0 := by omega
  rw [this]
  rfl

end RangeSumFacts

section WorkerFacts

variable {α : Type} [Zero α] [Add α] [Mul α]

omit [Zero α] in
theorem thread_index_loop (a : α) (lo : Int) (n : Nat) (mem : Mem α) (s : α) :
    (List.range n).foldl (fun st (j : Nat) => saxpy_thread_index a (lo + (j : Int)) st) (mem, s)
      = ({ mem with
            Y := fun i => if lo ≤ i ∧ i < lo + (n : Int) then mem.Y i + a * mem.X i
                          else mem.Y i },
         (List.range n).foldl
            (fun s (j : Nat) => s + (mem.Y (lo + (j : Int)) + a * mem.X (lo + (j : Int)))) s) := by
  induction n with
  | zero =>
    apply Prod.ext
    · apply Mem.ext <;> try rfl
      funext i
      have : ¬ (lo ≤ i ∧ i < lo + ((0 : Nat) : Int)) := by omega
      simp only [List.range_zero, List.foldl_nil, if_neg this]
    · rfl
  | succ n ih =>
    rw [List.range_succ, List.foldl_append, ih, List.foldl_append]
    simp only [List.foldl_cons, List.foldl_nil, saxpy_thread_index, store]
    have hn : ¬ (lo ≤ lo + (n : Int) ∧ lo + (n : Int) < lo + (n : Int)) := by omega
    apply Prod.ext
    · apply Mem.ext <;> try rfl
      funext i
      simp only [store, if_neg hn]
      by_cases hi : i = lo + (n : Int)
      · have h1 : lo ≤ i ∧ i < lo + ((n + 1 : Nat) : Int) := by
          push_cast
          omega
        rw [if_pos hi, if_pos h1, hi]
      · rw [if_neg hi]
        by_cases h2 : lo ≤ i ∧ i < lo + (n : Int)
        · have h1 : lo ≤ i ∧ i < lo + ((n + 1 : Nat) : Int) := by
            push_cast
            omega
          rw [if_pos h2, if_pos h1]
        · have h1 : ¬ (lo ≤ i ∧ i < lo + ((n + 1 : Nat) : Int)) := by
            push_cast
            omega
          rw [if_neg h2, if_neg h1]
    · simp only [if_neg hn, if_true]

theorem thread_iter_eq (args : saxpy_args α) (it : Int) (mem : Mem α) :
    saxpy_thread_iter args it mem
      = { X := mem.X
          Y := fun i => if args.start_pos ≤ i ∧ i < args.end_pos
                        then mem.Y i + args.a * mem.X i else mem.Y i
          Y_avgs := mem.Y_avgs
          partial_sums := store mem.partial_sums (args.Y_avgs + it)
            (range_sum args.start_pos args.end_pos (fun i => mem.Y i + args.a * mem.X i)) } := by
  unfold saxpy_thread_iter forLoop
  rw [thread_index_loop]
  apply Mem.ext
  · rfl
  · funext i
    dsimp only
    by_cases h : args.start_pos ≤ i ∧ i < args.end_pos
    · rw [if_pos h, if_pos (by omega)]
    · rw [if_neg h, if_neg (by omega)]
  · rfl
  · rfl

/-- The memory `saxpy_thread` leaves behind: `X` and the caller's `Y_avgs` are as before,
`Y[i]` has gone through `max_iters` updates for `i` in `[start_pos, end_pos)` and is as before
elsewhere, and slot `t < max_iters` of the output row holds the sum over the range of the
values of `Y` after pass `t + 1`, the other cells of `partial_sums` being as before. -/
theorem thread_loop (args : saxpy_args α) (n : Nat) (mem : Mem α) :
    (List.range n).foldl (fun m (j : Nat) => saxpy_thread_iter args (0 + (j : Int)) m) mem
      = { X := mem.X
          Y := fun i => if args.start_pos ≤ i ∧ i < args.end_pos
                        then pass mem.X args.a n mem.Y i else mem.Y i
          Y_avgs := mem.Y_avgs
          partial_sums := fun c =>
            if args.Y_avgs ≤ c ∧ c < args.Y_avgs + (n : Int)
            then range_sum args.start_pos args.end_pos
                  (pass mem.X args.a ((c - args.Y_avgs).toNat + 1) mem.Y)
            else mem.partial_sums c } := by
  induction n with
  | zero =>
    apply Mem.ext
    · rfl
    · funext i
      simp only [List.range_zero, List.foldl_nil, pass_zero, ite_self]
    · rfl
    · funext c
      have : ¬ (args.Y_avgs ≤ c ∧ c < args.Y_avgs + ((0 : Nat) : Int)) := by omega
      simp only [List.range_zero, List.foldl_nil, if_neg this]
  | succ n ih =>
    rw [List.range_succ, List.foldl_append, ih]
    simp only [List.foldl_cons, List.foldl_nil]
    rw [thread_iter_eq]
    apply Mem.ext
    · rfl
    · funext i
      by_cases h : args.start_pos ≤ i ∧ i < args.end_pos
      · simp only [if_pos h, pass_succ]
      · simp only [if_neg h]
    · rfl
    · funext c
      simp only [store]
      have hs : range_sum args.start_pos args.end_pos
          (fun i => (if args.start_pos ≤ i ∧ i < args.end_pos
                     then pass mem.X args.a n mem.Y i else mem.Y i) + args.a * mem.X i)
          = range_sum args.start_pos args.end_pos (pass mem.X args.a (n + 1) mem.Y) := by
        apply range_sum_congr
        intro i h1 h2
        simp only [if_pos (And.intro h1 h2), pass_succ]
      by_cases hc : c = args.Y_avgs + (0 + (n : Int))
      · have h1 : args.Y_avgs ≤ c ∧ c < args.Y_avgs + ((n + 1 : Nat) : Int) := by
          push_cast
          omega
        have h2 : (c - args.Y_avgs).toNat = n := by omega
        rw [if_pos hc, if_pos h1, hs, h2]
      · rw [if_neg hc]
        by_cases h2 : args.Y_avgs ≤ c ∧ c < args.Y_avgs + (n : Int)
        · have h1 : args.Y_avgs ≤ c ∧ c < args.Y_avgs + ((n + 1 : Nat) : Int) := by
            push_cast
            omega
          rw [if_pos h2, if_pos h1]
        · have h1 : ¬ (args.Y_avgs ≤ c ∧ c < args.Y_avgs + ((n + 1 : Nat) : Int)) := by
            push_cast
            omega
          rw [if_neg h2, if_neg h1]

theorem saxpy_thread_eq (args : saxpy_args α) (mem : Mem α) :
    saxpy_thread args mem
      = { X := mem.X
          Y := fun i => if args.start_pos ≤ i ∧ i < args.end_pos
                        then pass mem.X args.a args.max_iters.toNat mem.Y i else mem.Y i
          Y_avgs := mem.Y_avgs
          partial_sums := fun c =>
            if args.Y_avgs ≤ c ∧ c < args.Y_avgs + args.max_iters
            then range_sum args.start_pos args.end_pos
                  (pass mem.X args.a ((c - args.Y_avgs).toNat + 1) mem.Y)
            else mem.partial_sums c } := by
  unfold saxpy_thread forLoop
  rw [thread_loop]
  apply Mem.ext
  · rfl
  · funext i
    simp only [sub_zero]
  · rfl
  · funext c
    dsimp only
    by_cases h : args.Y_avgs ≤ c ∧ c < args.Y_avgs + args.max_iters
    · rw [if_pos h, if_pos (by omega)]
    · rw [if_neg h, if_neg (by omega)]

theorem run_workers_nil (mem : Mem α) : run_workers ([] : List (saxpy_args α)) mem = mem := rfl

theorem run_workers_snoc (ws : List (saxpy_args α)) (w : saxpy_args α) (mem : Mem α) :
    run_workers (ws ++ [w]) mem = saxpy_thread w (run_workers ws mem) := by
  unfold run_workers
  rw [List.foldl_append]
  rfl

theorem run_workers_X (ws : List (saxpy_args α)) (mem : Mem α) :
    (run_workers ws mem).X = mem.X := by
  induction ws using List.reverseRecOn with
  | nil => rfl
  | append_singleton ws w ih => rw [run_workers_snoc, saxpy_thread_eq, ih]

theorem run_workers_Y_avgs (ws : List (saxpy_args α)) (mem : Mem α) :
    (run_workers ws mem).Y_avgs = mem.Y_avgs := by
  induction ws using List.reverseRecOn with
  | nil => rfl
  | append_singleton ws w ih => rw [run_workers_snoc, saxpy_thread_eq, ih]

/-- Workers that each have an empty range or no iteration to do leave `Y` as it is. -/
theorem run_workers_Y_of_idle (ws : List (saxpy_args α)) (mem : Mem α)
    (h : ∀ w ∈ ws, w.end_pos ≤ w.start_pos ∨ w.max_iters ≤ 0) :
    (run_workers ws mem).Y = mem.Y := by
  induction ws using List.reverseRecOn with
  | nil => rfl
  | append_singleton ws w ih =>
    rw [run_workers_snoc, saxpy_thread_eq]
    have hw := h w (by simp)
    rw [← ih (fun v hv => h v (by simp [hv]))]
    funext i
    dsimp only
    by_cases hi : w.start_pos ≤ i ∧ i < w.end_pos
    · rw [if_pos hi]
      have hm : w.max_iters.toNat = 0 := by omega
      rw [hm]
      rfl
    · rw [if_neg hi]

end WorkerFacts

/-! ## Claims about the worker -/

section WorkerClaims

variable {α : Type} [Zero α] [Add α] [Mul α]

/-- C7. Worker frame: a run of `saxpy_thread` leaves `Y[i]` unchanged for every `i` outside
`[start_pos, end_pos)`, leaves `X` and the caller's `Y_avgs` unchanged, leaves every cell
outside the `max_iters` slots of its output row unchanged, and stores into each slot
`t < max_iters` a value fixed by `X`, `Y` and `a` alone (the slot is written). -/
theorem worker_frame (args : saxpy_args α) (mem : Mem α) :
    (∀ i : Int, ¬ (args.start_pos ≤ i ∧ i < args.end_pos) →
      (saxpy_thread args mem).Y i = mem.Y i) ∧
    (saxpy_thread args mem).X = mem.X ∧
    (saxpy_thread args mem).Y_avgs = mem.Y_avgs ∧
    (∀ c : Int, ¬ (args.Y_avgs ≤ c ∧ c < args.Y_avgs + args.max_iters) →
      (saxpy_thread args mem).partial_sums c = mem.partial_sums c) ∧
    (∀ t : Int, 0 ≤ t → t < args.max_iters →
      (saxpy_thread args mem).partial_sums (args.Y_avgs + t)
        = range_sum args.start_pos args.end_pos (pass mem.X args.a (t.toNat + 1) mem.Y)) := by
  rw [saxpy_thread_eq]
  refine ⟨?_, rfl, rfl, ?_, ?_⟩
  · intro i hi
    simp only [if_neg hi]
  · intro c hc
    simp only [if_neg hc]
  · intro t h0 h1
    have hc : args.Y_avgs ≤ args.Y_avgs + t ∧ args.Y_avgs + t < args.Y_avgs + args.max_iters := by
      omega
    have ht : (args.Y_avgs + t - args.Y_avgs).toNat = t.toNat := by
      congr 1
      omega
    simp only [if_pos hc, ht]

/-- A worker whose range is empty writes `0` into each of its `max_iters` output slots and
leaves the whole of `Y` unchanged. -/
theorem thread_of_empty (args : saxpy_args α) (mem : Mem α)
    (h : args.start_pos = args.end_pos) :
    (∀ t : Int, 0 ≤ t → t < args.max_iters →
      (saxpy_thread args mem).partial_sums (args.Y_avgs + t) = 0) ∧
    (saxpy_thread args mem).Y = mem.Y := by
  rw [saxpy_thread_eq]
  constructor
  · intro t h0 h1
    have hc : args.Y_avgs ≤ args.Y_avgs + t ∧ args.Y_avgs + t < args.Y_avgs + args.max_iters := by
      omega
    simp only [if_pos hc]
    exact range_sum_empty _ _ _ (by omega)
  · funext i
    have : ¬ (args.start_pos ≤ i ∧ i < args.end_pos) := by omega
    simp only [if_neg this]

end WorkerClaims

/-! ## The workers of `saxpy_setup` in closed form -/

theorem row_lt (m k₁ k₂ t : Int) (h : k₁ < k₂) (ht : t < m) (hm : 0 ≤ m) :
    k₁ * m + t < k₂ * m := by
  have h1 : (k₁ + 1) * m ≤ k₂ * m := mul_le_mul_of_nonneg_right (by omega) hm
  have h2 : (k₁ + 1) * m = k₁ * m + m := by ring
  omega

section SetupFacts

variable {α : Type} [Zero α] [Add α] [Mul α]

omit [Zero α] [Add α] [Mul α] in
theorem setup_args_succ (a : α) (p m n : Int) (j : Nat) :
    (List.range (j + 1)).map (fun i : Nat => setup_args_at a p m n (i : Int))
      = (List.range j).map (fun i : Nat => setup_args_at a p m n (i : Int))
          ++ [setup_args_at a p m n (j : Int)] := by
  rw [List.range_succ, List.map_append]
  rfl

/-- The memory after the first `j` workers of `saxpy_setup` have run, when the ranges of
distinct workers share no index. -/
theorem run_first_workers (a : α) (p m n : Int)
    (hdis : ∀ k₁ k₂ i : Int, 0 ≤ k₁ → k₁ < k₂ → k₂ < n →
      setup_start_pos p n k₁ ≤ i ∧ i < setup_end_pos p n k₁ →
      setup_start_pos p n k₂ ≤ i ∧ i < setup_end_pos p n k₂ → False)
    (mem : Mem α) (j : Nat) (hj : (j : Int) ≤ n) :
    (∀ k i : Int, 0 ≤ k → k < j →
      setup_start_pos p n k ≤ i ∧ i < setup_end_pos p n k →
      (run_workers ((List.range j).map (fun i : Nat => setup_args_at a p m n (i : Int))) mem).Y i
        = pass mem.X a m.toNat mem.Y i) ∧
    (∀ i : Int,
      (∀ k : Int, 0 ≤ k → k < j →
        ¬ (setup_start_pos p n k ≤ i ∧ i < setup_end_pos p n k)) →
      (run_workers ((List.range j).map (fun i : Nat => setup_args_at a p m n (i : Int))) mem).Y i
        = mem.Y i) ∧
    (∀ k t : Int, 0 ≤ k → k < j → 0 ≤ t → t < m →
      (run_workers ((List.range j).map
          (fun i : Nat => setup_args_at a p m n (i : Int))) mem).partial_sums (cell m k t)
        = range_sum (setup_start_pos p n k) (setup_end_pos p n k)
            (pass mem.X a (t.toNat + 1) mem.Y)) ∧
    (∀ c : Int,
      (∀ k : Int, 0 ≤ k → k < j → ¬ (k * m ≤ c ∧ c < k * m + m)) →
      (run_workers ((List.range j).map
          (fun i : Nat => setup_args_at a p m n (i : Int))) mem).partial_sums c
        = mem.partial_sums c) := by
  induction j with
  | zero =>
    refine ⟨?_, ?_, ?_, ?_⟩
    · intro k i h0 h1
      omega
    · intro i _
      rfl
    · intro k t h0 h1
      omega
    · intro c _
      rfl
  | succ j ih =>
    obtain ⟨ih1, ih2, ih3, ih4⟩ := ih (by omega)
    rw [setup_args_succ, run_workers_snoc, saxpy_thread_eq, run_workers_X]
    have hfresh : ∀ i : Int,
        setup_start_pos p n j ≤ i ∧ i < setup_end_pos p n j →
        (run_workers ((List.range j).map
          (fun i : Nat => setup_args_at a p m n (i : Int))) mem).Y i = mem.Y i := by
      intro i hi
      apply ih2
      intro k h0 h1 hk
      exact hdis k j i h0 h1 (by omega) hk hi
    refine ⟨?_, ?_, ?_, ?_⟩
    · intro k i h0 h1 hk
      dsimp only [setup_args_at]
      by_cases hkj : k = j
      · subst hkj
        rw [if_pos hk]
        exact pass_congr _ _ _ _ _ _ (hfresh i hk)
      · have hnot : ¬ (setup_start_pos p n j ≤ i ∧ i < setup_end_pos p n j) := by
          intro hi
          exact hdis k j i h0 (by omega) (by omega) hk hi
        rw [if_neg hnot]
        exact ih1 k i h0 (by omega) hk
    · intro i hi
      dsimp only [setup_args_at]
      rw [if_neg (hi j (by omega) (by omega))]
      exact ih2 i (fun k h0 h1 => hi k h0 (by omega))
    · intro k t h0 h1 ht0 ht
      dsimp only [setup_args_at, cell]
      by_cases hkj : k = j
      · subst hkj
        have hc : (j : Int) * m ≤ (j : Int) * m + t ∧ (j : Int) * m + t < (j : Int) * m + m := by
          omega
        have hn : ((j : Int) * m + t - (j : Int) * m).toNat = t.toNat := by
          congr 1
          omega
        rw [if_pos hc, hn]
        apply range_sum_congr
        intro i hi1 hi2
        exact pass_congr _ _ _ _ _ _ (hfresh i ⟨hi1, hi2⟩)
      · have hlt := row_lt m k j t (by omega) ht (by omega)
        have hnot : ¬ ((j : Int) * m ≤ k * m + t ∧ k * m + t < (j : Int) * m + m) := by omega
        rw [if_neg hnot]
        exact ih3 k t h0 (by omega) ht0 ht
    · intro c hc
      dsimp only [setup_args_at]
      rw [if_neg (hc j (by omega) (by omega))]
      exact ih4 c (fun k h0 h1 => hc k h0 (by omega))

/-- The memory after all workers of `saxpy_setup` have run, for a valid configuration. -/
theorem run_setup_args (a : α) (p m n : Int) (hp : 1 ≤ p) (hn : 1 ≤ n) (mem : Mem α) :
    (∀ i : Int, 0 ≤ i → i < p →
      (run_workers (setup_args a p m n) mem).Y i = pass mem.X a m.toNat mem.Y i) ∧
    (∀ i : Int, ¬ (0 ≤ i ∧ i < p) → (run_workers (setup_args a p m n) mem).Y i = mem.Y i) ∧
    (∀ k t : Int, 0 ≤ k → k < n → 0 ≤ t → t < m →
      (run_workers (setup_args a p m n) mem).partial_sums (cell m k t)
        = range_sum (setup_start_pos p n k) (setup_end_pos p n k)
            (pass mem.X a (t.toNat + 1) mem.Y)) ∧
    (∀ c : Int, (∀ k : Int, 0 ≤ k → k < n → ¬ (k * m ≤ c ∧ c < k * m + m)) →
      (run_workers (setup_args a p m n) mem).partial_sums c = mem.partial_sums c) := by
  have hdis : ∀ k₁ k₂ i : Int, 0 ≤ k₁ → k₁ < k₂ → k₂ < n →
      setup_start_pos p n k₁ ≤ i ∧ i < setup_end_pos p n k₁ →
      setup_start_pos p n k₂ ≤ i ∧ i < setup_end_pos p n k₂ → False := by
    intro k₁ k₂ i _ h12 h2 hi1 hi2
    exact seg_disjoint p n k₁ k₂ i hp hn (by omega) h2 (by omega) hi1 hi2
  obtain ⟨h1, h2, h3, h4⟩ := run_first_workers a p m n hdis mem n.toNat (by omega)
  have hcast : ((n.toNat : Nat) : Int) = n := by omega
  unfold setup_args
  refine ⟨?_, ?_, ?_, ?_⟩
  · intro i hi0 hip
    obtain ⟨k, hk, hr⟩ := seg_exists p n i hp hn hi0 hip
    exact h1 k i hk.1 (by omega) hr
  · intro i hi
    apply h2
    intro k hk0 hk hr
    have e1 := seg_start_nonneg p n k hp hn hk0
    have e2 := seg_end_le p n k hp hn (by omega)
    omega
  · intro k t hk0 hk ht0 ht
    exact h3 k t hk0 (by omega) ht0 ht
  · intro c hc
    exact h4 c (fun k hk0 hk => hc k hk0 (by omega))

end SetupFacts

/-! ## The reduction in closed form -/

section ReduceFacts

variable {α : Type} [Zero α] [Add α] [Div α] [IntCast α]

theorem reduce_loop (p m n : Int) (mem : Mem α) (j : Nat) :
    (List.range j).foldl (fun s (i : Nat) => setup_reduce_iter p m n (0 + (i : Int)) s) mem
      = { mem with
          Y_avgs := fun t => if 0 ≤ t ∧ t < (j : Int)
                             then setup_aux m n t mem.partial_sums / (p : α)
                             else mem.Y_avgs t } := by
  induction j with
  | zero =>
    apply Mem.ext <;> try rfl
    funext t
    have : ¬ (0 ≤ t ∧ t < ((0 : Nat) : Int)) := by omega
    simp only [List.range_zero, List.foldl_nil, if_neg this]
  | succ j ih =>
    rw [List.range_succ, List.foldl_append, ih]
    simp only [List.foldl_cons, List.foldl_nil, setup_reduce_iter]
    apply Mem.ext <;> try rfl
    funext t
    simp only [store]
    by_cases ht : t = 0 + (j : Int)
    · have h1 : 0 ≤ t ∧ t < ((j + 1 : Nat) : Int) := by
        push_cast
        omega
      rw [if_pos ht, if_pos h1, ht]
    · rw [if_neg ht]
      by_cases h2 : 0 ≤ t ∧ t < (j : Int)
      · have h1 : 0 ≤ t ∧ t < ((j + 1 : Nat) : Int) := by
          push_cast
          omega
        rw [if_pos h2, if_pos h1]
      · have h1 : ¬ (0 ≤ t ∧ t < ((j + 1 : Nat) : Int)) := by
          push_cast
          omega
        rw [if_neg h2, if_neg h1]

theorem setup_reduce_eq (p m n : Int) (mem : Mem α) :
    setup_reduce p m n mem
      = { mem with
          Y_avgs := fun t => if 0 ≤ t ∧ t < m
                             then setup_aux m n t mem.partial_sums / (p : α)
                             else mem.Y_avgs t } := by
  unfold setup_reduce forLoop
  rw [reduce_loop]
  apply Mem.ext <;> try rfl
  funext t
  dsimp only
  by_cases h : 0 ≤ t ∧ t < m
  · rw [if_pos h, if_pos (by omega)]
  · rw [if_neg h, if_neg (by omega)]

end ReduceFacts

/-! ## Exact arithmetic: ordered sums as finite sums -/

section ExactFacts

variable {α : Type} [AddCommMonoid α]

end ExactFacts

/-! ## Claims about the coordinator -/

section SetupClaims

/-- The vector `Y` that `saxpy_setup` leaves behind. -/
theorem setup_Y_eq {α : Type} [Zero α] [Add α] [Mul α] [Div α] [IntCast α]
    (X Y Y_avgs heap : Int → α) (a : α) (p m n : Int) (hp : 1 ≤ p) (hn : 1 ≤ n) :
    (saxpy_setup X Y Y_avgs a p m n heap).Y
      = fun i => if 0 ≤ i ∧ i < p then pass X a m.toNat Y i else Y i := by
  unfold saxpy_setup saxpy_setup_sched
  rw [setup_reduce_eq]
  dsimp only
  obtain ⟨h1, h2, -, -⟩ := run_setup_args a p m n hp hn
    { X := X, Y := Y, Y_avgs := Y_avgs, partial_sums := heap }
  funext i
  by_cases hi : 0 ≤ i ∧ i < p
  · rw [if_pos hi]
    exact h1 i hi.1 hi.2
  · rw [if_neg hi]
    exact h2 i hi

/-- C3. Worker-count invariance of `Y`: for `p ≥ 1` and any two worker counts `n1, n2 ≥ 1`
the vector `Y` left by `saxpy_setup` is the same, and for every `i` in `[0, p)` it is the
initial `Y[i]` after `max_iters` applications of `y -> y + a * X[i]`. -/
theorem worker_count_invariance {α : Type} [Zero α] [Add α] [Mul α] [Div α] [IntCast α]
    (X Y Y_avgs heap₁ heap₂ : Int → α) (a : α) (p max_iters n1 n2 : Int)
    (hp : 1 ≤ p) (h1 : 1 ≤ n1) (h2 : 1 ≤ n2) :
    (saxpy_setup X Y Y_avgs a p max_iters n1 heap₁).Y
      = (saxpy_setup X Y Y_avgs a p max_iters n2 heap₂).Y ∧
    (∀ i : Int, 0 ≤ i → i < p →
      (saxpy_setup X Y Y_avgs a p max_iters n1 heap₁).Y i
        = (fun y => y + a * X i)^[max_iters.toNat] (Y i)) := by
  rw [setup_Y_eq X Y Y_avgs heap₁ a p max_iters n1 hp h1,
    setup_Y_eq X Y Y_avgs heap₂ a p max_iters n2 hp h2]
  refine ⟨rfl, ?_⟩
  intro i hi0 hip
  dsimp only
  rw [if_pos ⟨hi0, hip⟩]
  rfl

/-- Witness for C3: `p = 4`, two passes, one worker against three. -/
theorem worker_count_invariance_witness :
    ((1 : Int) ≤ 4 ∧ (1 : Int) ≤ 1 ∧ (1 : Int) ≤ 3) ∧
    (saxpy_setup (fun _ => (1 : ℚ)) (fun _ => 0) (fun _ => 0) 2 4 2 1 (fun _ => 7)).Y
      = (saxpy_setup (fun _ => (1 : ℚ)) (fun _ => 0) (fun _ => 0) 2 4 2 3 (fun _ => 9)).Y :=
  ⟨by decide,
    (worker_count_invariance (fun _ => (1 : ℚ)) (fun _ => 0) (fun _ => 0) (fun _ => 7)
      (fun _ => 9) 2 4 2 1 3 (by decide) (by decide) (by decide)).1⟩

end SetupClaims

/-! ## Independence of the workers -/

section IndependenceFacts

variable {α : Type} [Zero α] [Add α] [Mul α]

end IndependenceFacts

/-- The output rows of two distinct workers of `saxpy_setup` share no cell. -/
theorem rows_disjoint (m k₁ k₂ c : Int) (hne : k₁ ≠ k₂)
    (h1 : k₁ * m ≤ c ∧ c < k₁ * m + m) (h2 : k₂ * m ≤ c ∧ c < k₂ * m + m) : False := by
  have hm : 0 ≤ m := by omega
  rcases lt_or_gt_of_ne hne with h | h
  · have := row_lt m k₁ k₂ (c - k₁ * m) h (by omega) hm
    omega
  · have := row_lt m k₂ k₁ (c - k₂ * m) h (by omega) hm
    omega

section TableFacts

variable {α : Type} [Zero α] [Add α] [Mul α]

/-- The content of a cell lying in the row of one of the workers run does not depend on what
the block held before the workers ran. -/
theorem run_workers_written (ws : List (saxpy_args α)) (mem mem' : Mem α)
    (hX : mem.X = mem'.X) (hY : mem.Y = mem'.Y) :
    (run_workers ws mem).X = (run_workers ws mem').X ∧
    (run_workers ws mem).Y = (run_workers ws mem').Y ∧
    (∀ c : Int,
      (∃ w ∈ ws, w.Y_avgs ≤ c ∧ c < w.Y_avgs + w.max_iters) →
      (run_workers ws mem).partial_sums c = (run_workers ws mem').partial_sums c) := by
  induction ws using List.reverseRecOn with
  | nil =>
    refine ⟨hX, hY, ?_⟩
    rintro c ⟨w, hw, -⟩
    simp at hw
  | append_singleton ws v ih =>
    obtain ⟨ihX, ihY, ihT⟩ := ih
    rw [run_workers_snoc, run_workers_snoc, saxpy_thread_eq, saxpy_thread_eq]
    dsimp only
    rw [ihX, ihY]
    refine ⟨rfl, rfl, ?_⟩
    rintro c ⟨w, hw, hc⟩
    by_cases hv : v.Y_avgs ≤ c ∧ c < v.Y_avgs + v.max_iters
    · rw [if_pos hv, if_pos hv]
    · rw [if_neg hv, if_neg hv]
      rw [List.mem_append, List.mem_singleton] at hw
      rcases hw with hw | hw
      · exact ihT c ⟨w, hw, hc⟩
      · rw [hw] at hc
        exact absurd hc hv

end TableFacts

theorem cell_injective (m k t k' t' : Int) (ht0 : 0 ≤ t) (ht : t < m) (ht0' : 0 ≤ t')
    (ht' : t' < m) (h : cell m k t = cell m k' t') : k = k' ∧ t = t' := by
  unfold cell at h
  have hk : k = k' := by
    by_contra hne
    exact rows_disjoint m k k' (k * m + t) hne ⟨by omega, by omega⟩ ⟨by omega, by omega⟩
  subst hk
  exact ⟨rfl, by omega⟩

theorem cell_bounds (n m k t : Int) (hk0 : 0 ≤ k) (hk : k < n) (ht0 : 0 ≤ t) (ht : t < m) :
    0 ≤ cell m k t ∧ cell m k t < n * m := by
  unfold cell
  have h1 : 0 ≤ k * m := mul_nonneg hk0 (by omega)
  have h2 := row_lt m k n t hk ht (by omega)
  omega

theorem cell_int_eq (n m k t : Int) (hfit : n * m ≤ 2147483647) (hk0 : 0 ≤ k) (hk : k < n)
    (ht0 : 0 ≤ t) (ht : t < m) :
    int_mul k m = some (k * m) ∧ cell_int m k t = some (cell m k t) := by
  have hb := cell_bounds n m k t hk0 hk ht0 ht
  unfold cell at hb
  have h1 : 0 ≤ k * m := mul_nonneg hk0 (by omega)
  have hmul : int_mul k m = some (k * m) := by
    unfold int_mul
    rw [if_pos ⟨by omega, by omega⟩]
  refine ⟨hmul, ?_⟩
  unfold cell_int
  rw [hmul]
  show int_add (k * m) t = some (cell m k t)
  unfold int_add cell
  rw [if_pos ⟨by omega, by omega⟩]

/-- C9, as stated, fails: with `n_workers = 3` and `max_iters = 2^30` the index of cell
`(2, 0)` is `2^31`, which the `int` computation `i * max_iters + it` of the source cannot
produce: no `int` index below `n_workers * max_iters` comes out of it. -/
theorem table_index_counterexample :
    ((1 : Int) ≤ 3 ∧ (1 : Int) ≤ 1073741824 ∧ ((0 : Int) ≤ 2 ∧ (2 : Int) < 3) ∧
      ((0 : Int) ≤ 0 ∧ (0 : Int) < 1073741824)) ∧
    cell 1073741824 2 0 = 2147483648 ∧
    ¬ ∃ c : Int, cell_int 1073741824 2 0 = some c ∧ 0 ≤ c ∧ c < 3 * 1073741824 := by
  refine ⟨by decide, by decide, ?_⟩
  rintro ⟨c, hc, -⟩
  have hnone : cell_int 1073741824 2 0 = none := by decide
  rw [hnone] at hc
  exact Option.noConfusion hc

/-- C9, amended. For `n_workers ≥ 1` and `max_iters ≥ 1` with
`n_workers * max_iters ≤ 2147483647` (the number of cells is an `int`): the `int` computation
of `k * max_iters + t` does not leave the range of `int`; the map
`(k, t) -> k * max_iters + t` is injective on `[0, n_workers) x [0, max_iters)` and lands in
`[0, n_workers * max_iters)`; worker `k` changes no cell outside row `k` and stores into every
cell of row `k` a value that does not depend on the old content of the block; so every cell
the reduction reads holds, after the join, a value that does not depend on what `malloc`
returned, and every cell of the table lies in the row of exactly one worker. -/
theorem table_discipline (n_workers max_iters : Int) (hn : 1 ≤ n_workers)
    (hm : 1 ≤ max_iters) (hfit : n_workers * max_iters ≤ 2147483647) :
    (∀ k t : Int, 0 ≤ k → k < n_workers → 0 ≤ t → t < max_iters →
      int_mul k max_iters = some (k * max_iters) ∧
      cell_int max_iters k t = some (cell max_iters k t)) ∧
    (∀ k t k' t' : Int, 0 ≤ k → k < n_workers → 0 ≤ t → t < max_iters →
      0 ≤ k' → k' < n_workers → 0 ≤ t' → t' < max_iters →
      cell max_iters k t = cell max_iters k' t' → k = k' ∧ t = t') ∧
    (∀ k t : Int, 0 ≤ k → k < n_workers → 0 ≤ t → t < max_iters →
      0 ≤ cell max_iters k t ∧ cell max_iters k t < n_workers * max_iters) ∧
    (∀ (α : Type) [Zero α] [Add α] [Mul α] (a : α) (p k : Int) (mem : Mem α),
      0 ≤ k → k < n_workers →
      (∀ c : Int, (∀ t : Int, 0 ≤ t → t < max_iters → c ≠ cell max_iters k t) →
        (saxpy_thread (setup_args_at a p max_iters n_workers k) mem).partial_sums c
          = mem.partial_sums c) ∧
      (∀ (t : Int) (heap : Int → α), 0 ≤ t → t < max_iters →
        (saxpy_thread (setup_args_at a p max_iters n_workers k)
            { mem with partial_sums := heap }).partial_sums (cell max_iters k t)
          = (saxpy_thread (setup_args_at a p max_iters n_workers k) mem).partial_sums
              (cell max_iters k t))) ∧
    (∀ (α : Type) [Zero α] [Add α] [Mul α] (X Y Y_avgs heap heap' : Int → α) (a : α)
        (p k t : Int), 0 ≤ k → k < n_workers → 0 ≤ t → t < max_iters →
      (run_workers (setup_args a p max_iters n_workers)
          { X := X, Y := Y, Y_avgs := Y_avgs, partial_sums := heap }).partial_sums
          (cell max_iters k t)
        = (run_workers (setup_args a p max_iters n_workers)
            { X := X, Y := Y, Y_avgs := Y_avgs, partial_sums := heap' }).partial_sums
            (cell max_iters k t)) ∧
    (∀ c : Int, 0 ≤ c → c < n_workers * max_iters →
      ∃! k : Int, (0 ≤ k ∧ k < n_workers) ∧
        ∃ t : Int, (0 ≤ t ∧ t < max_iters) ∧ c = cell max_iters k t) := by
  refine ⟨?_, ?_, ?_, ?_, ?_, ?_⟩
  · intro k t hk0 hk ht0 ht
    exact cell_int_eq n_workers max_iters k t hfit hk0 hk ht0 ht
  · intro k t k' t' _ _ ht0 ht _ _ ht0' ht' h
    exact cell_injective max_iters k t k' t' ht0 ht ht0' ht' h
  · intro k t hk0 hk ht0 ht
    exact cell_bounds n_workers max_iters k t hk0 hk ht0 ht
  · intro α _ _ _ a p k mem _ _
    constructor
    · intro c hc
      rw [saxpy_thread_eq]
      dsimp only [setup_args_at]
      have hnot : ¬ (k * max_iters ≤ c ∧ c < k * max_iters + max_iters) := by
        intro h
        exact hc (c - k * max_iters) (by omega) (by omega) (by unfold cell; omega)
      rw [if_neg hnot]
    · intro t heap ht0 ht
      rw [saxpy_thread_eq, saxpy_thread_eq]
      dsimp only [setup_args_at, cell]
      have hin : k * max_iters ≤ k * max_iters + t ∧
          k * max_iters + t < k * max_iters + max_iters := by omega
      rw [if_pos hin, if_pos hin]
  · intro α _ _ _ X Y Y_avgs heap heap' a p k t hk0 hk ht0 ht
    apply (run_workers_written (setup_args a p max_iters n_workers)
      { X := X, Y := Y, Y_avgs := Y_avgs, partial_sums := heap }
      { X := X, Y := Y, Y_avgs := Y_avgs, partial_sums := heap' } rfl rfl).2.2
    refine ⟨setup_args_at a p max_iters n_workers k, ?_, ?_⟩
    · unfold setup_args
      rw [List.mem_map]
      refine ⟨k.toNat, ?_, ?_⟩
      · rw [List.mem_range]
        omega
      · rw [Int.toNat_of_nonneg hk0]
    · dsimp only [setup_args_at, cell]
      omega
  · intro c hc0 hc
    have hmpos : 0 < max_iters := by omega
    have hmd := Int.emod_add_ediv c max_iters
    have hm0 := Int.emod_nonneg c (ne_of_gt hmpos)
    have hm1 := Int.emod_lt_of_pos c hmpos
    have hq0 : 0 ≤ c / max_iters := Int.ediv_nonneg hc0 (by omega)
    have hcomm : max_iters * (c / max_iters) = c / max_iters * max_iters := by ring
    have hqn : c / max_iters < n_workers := by
      by_contra hge
      have : n_workers * max_iters ≤ c / max_iters * max_iters :=
        mul_le_mul_of_nonneg_right (by omega) (by omega)
      omega
    refine ⟨c / max_iters, ⟨⟨hq0, hqn⟩, c % max_iters, ⟨hm0, hm1⟩, ?_⟩, ?_⟩
    · unfold cell
      omega
    · rintro k' ⟨-, t', ⟨ht0', ht'⟩, hc'⟩
      have hcell : cell max_iters k' t' = cell max_iters (c / max_iters) (c % max_iters) := by
        rw [← hc']
        unfold cell
        omega
      exact (cell_injective max_iters k' t' _ _ ht0' ht' hm0 hm1 hcell).1

/-- Witness for C9 as amended: three workers, two iterations; the index of cell `(1, 1)` is
computed on `int` without overflow, and cell 3 belongs to exactly one row. -/
theorem table_discipline_witness :
    ((1 : Int) ≤ 3 ∧ (1 : Int) ≤ 2 ∧ (3 : Int) * 2 ≤ 2147483647 ∧ (0 : Int) ≤ 3 ∧
      (3 : Int) < 3 * 2) ∧
    cell_int 2 1 1 = some (cell 2 1 1) ∧
    ∃! k : Int, (0 ≤ k ∧ k < 3) ∧ ∃ t : Int, (0 ≤ t ∧ t < 2) ∧ (3 : Int) = cell 2 k t :=
  ⟨by decide,
    ((table_discipline 3 2 (by decide) (by decide) (by decide)).1 1 1 (by decide) (by decide)
      (by decide) (by decide)).2,
    (table_discipline 3 2 (by decide) (by decide) (by decide)).2.2.2.2.2 3 (by decide)
      (by decide)⟩

/-! ## Empty ranges -/

section EmptyRange

variable {α : Type} [Zero α] [Add α] [Mul α] [Div α] [IntCast α]

theorem setup_partial_sums_eq (X Y Y_avgs heap : Int → α) (a : α) (p m n : Int) :
    (saxpy_setup X Y Y_avgs a p m n heap).partial_sums
      = (run_workers (setup_args a p m n)
          { X := X, Y := Y, Y_avgs := Y_avgs, partial_sums := heap }).partial_sums := by
  unfold saxpy_setup saxpy_setup_sched
  rw [setup_reduce_eq]

/-- C8. Empty range: a worker with `start_pos == end_pos` still goes through all `max_iters`
iterations, storing `0` into every one of its `max_iters` output slots whatever they held, and
leaves the whole of `Y` unchanged; in `saxpy_setup` the cells the reduction reads for such a
worker all hold `0`, so it adds `0` to every `Y_avgs` slot. -/
theorem empty_range_worker :
    (∀ (args : saxpy_args α) (mem : Mem α), args.start_pos = args.end_pos →
      (∀ t : Int, 0 ≤ t → t < args.max_iters →
        (saxpy_thread args mem).partial_sums (args.Y_avgs + t) = 0) ∧
      (saxpy_thread args mem).Y = mem.Y) ∧
    (∀ (X Y Y_avgs heap : Int → α) (a : α) (p max_iters n_workers k t : Int),
      1 ≤ p → 1 ≤ n_workers → 0 ≤ k → k < n_workers →
      setup_start_pos p n_workers k = setup_end_pos p n_workers k →
      0 ≤ t → t < max_iters →
      (saxpy_setup X Y Y_avgs a p max_iters n_workers heap).partial_sums (cell max_iters k t)
        = 0) := by
  constructor
  · intro args mem h
    exact thread_of_empty args mem h
  · intro X Y Y_avgs heap a p max_iters n_workers k t hp hn hk0 hk he ht0 ht
    rw [setup_partial_sums_eq,
      (run_setup_args a p max_iters n_workers hp hn _).2.2.1 k t hk0 hk ht0 ht]
    exact range_sum_empty _ _ _ (by omega)

end EmptyRange

/-- Witness for C8: a worker with range `[3, 3)`, and worker 0 of four
workers on a vector of length 2. -/
theorem empty_range_worker_witness :
    ((3 : Int) = 3 ∧ (0 : Int) ≤ 1 ∧ (1 : Int) < 2 ∧
      (saxpy_thread ({ Y_avgs := 0, a := 2, max_iters := 2, start_pos := 3, end_pos := 3 } :
          saxpy_args ℚ)
        { X := fun _ => 1, Y := fun _ => 5, Y_avgs := fun _ => 0,
          partial_sums := fun _ => 7 }).partial_sums (0 + 1) = 0) ∧
    ((1 : Int) ≤ 2 ∧ (1 : Int) ≤ 4 ∧ (0 : Int) ≤ 0 ∧ (0 : Int) < 4 ∧
      setup_start_pos 2 4 0 = setup_end_pos 2 4 0 ∧
      (saxpy_setup (fun _ => (1 : ℚ)) (fun _ => 5) (fun _ => 0) 2 2 2 4
        (fun _ => 7)).partial_sums (cell 2 0 1) = 0) :=
  ⟨⟨rfl, by decide, by decide,
      ((empty_range_worker (α := ℚ)).1 _ _ rfl).1 1 (by decide) (by decide)⟩,
    ⟨by decide, by decide, by decide, by decide, by decide,
      (empty_range_worker (α := ℚ)).2 (fun _ => 1) (fun _ => 5) (fun _ => 0) (fun _ => 7)
        2 2 2 4 0 1 (by decide) (by decide) (by decide) (by decide) (by decide) (by decide)
        (by decide)⟩⟩

/-- Witness for C7: a worker on `[1, 3)` leaves `Y[5]` alone. -/
theorem worker_frame_witness :
    ¬ ((1 : Int) ≤ 5 ∧ (5 : Int) < 3) ∧
    (saxpy_thread ({ Y_avgs := 0, a := 2, max_iters := 2, start_pos := 1, end_pos := 3 } :
        saxpy_args ℚ)
      { X := fun _ => 1, Y := fun _ => 5, Y_avgs := fun _ => 0,
        partial_sums := fun _ => 7 }).Y 5 = 5 :=
  ⟨by decide,
    (worker_frame ({ Y_avgs := 0, a := 2, max_iters := 2, start_pos := 1, end_pos := 3 } :
        saxpy_args ℚ)
      { X := fun _ => 1, Y := fun _ => 5, Y_avgs := fun _ => 0,
        partial_sums := fun _ => 7 }).1 5 (by decide)⟩

/-! ## Sequential equivalence -/

section ReferenceFacts

variable {α : Type} [Zero α] [Add α] [Mul α] [Div α] [IntCast α]

omit [Zero α] [Div α] [IntCast α] in
theorem seq_index_loop (X : Int → α) (a : α) (lo : Int) (n : Nat) (Y : Int → α) (s : α) :
    (List.range n).foldl (fun st (j : Nat) => saxpy_seq_index X a (lo + (j : Int)) st) (Y, s)
      = (fun i => if lo ≤ i ∧ i < lo + (n : Int) then Y i + a * X i else Y i,
         (List.range n).foldl
            (fun s (j : Nat) => s + (Y (lo + (j : Int)) + a * X (lo + (j : Int)))) s) := by
  induction n with
  | zero =>
    apply Prod.ext
    · funext i
      have : ¬ (lo ≤ i ∧ i < lo + ((0 : Nat) : Int)) := by omega
      simp only [List.range_zero, List.foldl_nil, if_neg this]
    · rfl
  | succ n ih =>
    rw [List.range_succ, List.foldl_append, ih, List.foldl_append]
    simp only [List.foldl_cons, List.foldl_nil, saxpy_seq_index, store]
    have hn : ¬ (lo ≤ lo + (n : Int) ∧ lo + (n : Int) < lo + (n : Int)) := by omega
    apply Prod.ext
    · funext i
      simp only [store, if_neg hn]
      by_cases hi : i = lo + (n : Int)
      · have h1 : lo ≤ i ∧ i < lo + ((n + 1 : Nat) : Int) := by
          push_cast
          omega
        rw [if_pos hi, if_pos h1, hi]
      · rw [if_neg hi]
        by_cases h2 : lo ≤ i ∧ i < lo + (n : Int)
        · have h1 : lo ≤ i ∧ i < lo + ((n + 1 : Nat) : Int) := by
            push_cast
            omega
          rw [if_pos h2, if_pos h1]
        · have h1 : ¬ (lo ≤ i ∧ i < lo + ((n + 1 : Nat) : Int)) := by
            push_cast
            omega
          rw [if_neg h2, if_neg h1]
    · simp only [if_neg hn, if_true]

theorem seq_iter_eq (X : Int → α) (a : α) (p t : Int) (Y A : Int → α) :
    saxpy_seq_iter X a p t (Y, A)
      = (fun i => if 0 ≤ i ∧ i < p then Y i + a * X i else Y i,
         store A t (range_sum 0 p (fun i => Y i + a * X i) / (p : α))) := by
  unfold saxpy_seq_iter forLoop
  rw [seq_index_loop]
  apply Prod.ext
  · funext i
    dsimp only
    by_cases h : 0 ≤ i ∧ i < p
    · rw [if_pos h, if_pos (by omega)]
    · rw [if_neg h, if_neg (by omega)]
  · rfl

theorem seq_loop (X : Int → α) (a : α) (p : Int) (Y A : Int → α) (n : Nat) :
    (List.range n).foldl (fun st (j : Nat) => saxpy_seq_iter X a p (0 + (j : Int)) st) (Y, A)
      = (fun i => if 0 ≤ i ∧ i < p then pass X a n Y i else Y i,
         fun t => if 0 ≤ t ∧ t < (n : Int)
                  then range_sum 0 p (pass X a (t.toNat + 1) Y) / (p : α) else A t) := by
  induction n with
  | zero =>
    apply Prod.ext
    · funext i
      simp only [List.range_zero, List.foldl_nil, pass_zero, ite_self]
    · funext t
      have : ¬ (0 ≤ t ∧ t < ((0 : Nat) : Int)) := by omega
      simp only [List.range_zero, List.foldl_nil, if_neg this]
  | succ n ih =>
    rw [List.range_succ, List.foldl_append, ih]
    simp only [List.foldl_cons, List.foldl_nil]
    rw [seq_iter_eq]
    apply Prod.ext
    · funext i
      dsimp only
      by_cases h : 0 ≤ i ∧ i < p
      · simp only [if_pos h, pass_succ]
      · simp only [if_neg h]
    · funext t
      simp only [store]
      have hs : range_sum 0 p
          (fun i => (if 0 ≤ i ∧ i < p then pass X a n Y i else Y i) + a * X i)
          = range_sum 0 p (pass X a (n + 1) Y) := by
        apply range_sum_congr
        intro i h1 h2
        simp only [if_pos (And.intro h1 h2), pass_succ]
      by_cases ht : t = 0 + (n : Int)
      · have h1 : 0 ≤ t ∧ t < ((n + 1 : Nat) : Int) := by
          push_cast
          omega
        have h2 : t.toNat = n := by omega
        rw [if_pos ht, if_pos h1, hs, h2]
      · rw [if_neg ht]
        by_cases h2 : 0 ≤ t ∧ t < (n : Int)
        · have h1 : 0 ≤ t ∧ t < ((n + 1 : Nat) : Int) := by
            push_cast
            omega
          rw [if_pos h2, if_pos h1]
        · have h1 : ¬ (0 ≤ t ∧ t < ((n + 1 : Nat) : Int)) := by
            push_cast
            omega
          rw [if_neg h2, if_neg h1]

theorem saxpy_seq_eq (X Y Y_avgs : Int → α) (a : α) (p m : Int) :
    saxpy_seq X Y Y_avgs a p m
      = (fun i => if 0 ≤ i ∧ i < p then pass X a m.toNat Y i else Y i,
         fun t => if 0 ≤ t ∧ t < m
                  then range_sum 0 p (pass X a (t.toNat + 1) Y) / (p : α) else Y_avgs t) := by
  unfold saxpy_seq forLoop
  rw [seq_loop]
  apply Prod.ext
  · funext i
    simp only [sub_zero]
  · funext t
    dsimp only
    by_cases h : 0 ≤ t ∧ t < m
    · rw [if_pos h, if_pos (by omega)]
    · rw [if_neg h, if_neg (by omega)]

/-- The memory `saxpy_setup` leaves behind when there is one worker, for any arithmetic. -/
theorem setup_single (X Y Y_avgs heap : Int → α) (a : α) (p m : Int) :
    (saxpy_setup X Y Y_avgs a p m 1 heap).Y
      = (fun i => if 0 ≤ i ∧ i < p then pass X a m.toNat Y i else Y i) ∧
    (saxpy_setup X Y Y_avgs a p m 1 heap).Y_avgs
      = (fun t => if 0 ≤ t ∧ t < m
                  then (0 + range_sum 0 p (pass X a (t.toNat + 1) Y)) / (p : α)
                  else Y_avgs t) := by
  have hdis : ∀ k₁ k₂ i : Int, 0 ≤ k₁ → k₁ < k₂ → k₂ < 1 →
      setup_start_pos p 1 k₁ ≤ i ∧ i < setup_end_pos p 1 k₁ →
      setup_start_pos p 1 k₂ ≤ i ∧ i < setup_end_pos p 1 k₂ → False := by
    intro k₁ k₂ i h0 h12 h2
    omega
  obtain ⟨h1, h2, h3, -⟩ := run_first_workers a p m 1 hdis
    { X := X, Y := Y, Y_avgs := Y_avgs, partial_sums := heap } 1 (by decide)
  have hs : setup_start_pos p 1 0 = 0 := by simp [setup_start_pos]
  have he : setup_end_pos p 1 0 = p := by simp [setup_end_pos]
  have hargs : setup_args a p m 1
      = (List.range 1).map (fun i : Nat => setup_args_at a p m 1 (i : Int)) := rfl
  unfold saxpy_setup saxpy_setup_sched
  rw [setup_reduce_eq, hargs]
  dsimp only
  constructor
  · funext i
    by_cases hi : 0 ≤ i ∧ i < p
    · rw [if_pos hi]
      exact h1 0 i (le_refl 0) (by decide) (by rw [hs, he]; exact hi)
    · rw [if_neg hi]
      apply h2
      intro k hk0 hk
      have hk' : k = 0 := by omega
      rw [hk', hs, he]
      exact hi
  · rw [run_workers_Y_avgs]
    funext t
    by_cases ht : 0 ≤ t ∧ t < m
    · rw [if_pos ht, if_pos ht]
      have haux : ∀ T : Int → α, setup_aux m 1 t T = 0 + T (cell m 0 t) := by
        intro T
        rfl
      rw [haux, h3 0 t (le_refl 0) (by decide) ht.1 ht.2, hs, he]
    · rw [if_neg ht, if_neg ht]

end ReferenceFacts

/-- A sum started at `0` stays among the values singled out by `clean`. -/
theorem range_sum_clean {α : Type} [Zero α] [Add α] (clean : α → Prop) (h0 : clean 0)
    (hadd : ∀ x y : α, clean x → clean (x + y)) (lo hi : Int) (f : Int → α) :
    clean (range_sum lo hi f) := by
  rw [range_sum_eq]
  have hfold : ∀ (l : List Nat) (s : α), clean s →
      clean (l.foldl (fun s (j : Nat) => s + f (lo + (j : Int))) s) := by
    intro l
    induction l with
    | nil =>
      intro s hs
      exact hs
    | cons j l ih =>
      intro s hs
      exact ih _ (hadd s _ hs)
  exact hfold _ 0 h0

/-- C5. Sequential equivalence: `saxpy_setup` with one worker leaves exactly the same `Y` and
the same `Y_avgs` as the sequential reference `saxpy_seq`, for every `p`, `max_iters`, `a`,
`X`, `Y` (and whatever the `malloc` block held). The only difference between the two
computations is that the reduction forms `0 + sum` before dividing; the sum is itself started
at `0`, so it is a value on which adding `0` on the left changes nothing. The arithmetic is
any one with a set `clean` of values that holds `0`, is kept by `x + y` whenever `x` is in
it, and on which `0 + x = x`. Doubles rounded to nearest are such an arithmetic, with
`clean x` meaning that `x` is neither `-0.0` nor a signalling NaN, although `0.0 + -0.0` is
`+0.0`. -/
theorem sequential_equivalence {α : Type} [Zero α] [Add α] [Mul α] [Div α] [IntCast α]
    (clean : α → Prop) (h0 : clean 0) (hadd : ∀ x y : α, clean x → clean (x + y))
    (hzero : ∀ x : α, clean x → 0 + x = x)
    (X Y Y_avgs heap : Int → α) (a : α) (p max_iters : Int) :
    (saxpy_setup X Y Y_avgs a p max_iters 1 heap).Y = (saxpy_seq X Y Y_avgs a p max_iters).1 ∧
    (saxpy_setup X Y Y_avgs a p max_iters 1 heap).Y_avgs
      = (saxpy_seq X Y Y_avgs a p max_iters).2 := by
  obtain ⟨h1, h2⟩ := setup_single X Y Y_avgs heap a p max_iters
  rw [h1, h2, saxpy_seq_eq]
  refine ⟨rfl, ?_⟩
  funext t
  dsimp only
  rw [hzero _ (range_sum_clean clean h0 hadd 0 p _)]

/-- Witness for C5: the arithmetic `Sign5`, in which `0 + -0` is not `-0`, with `clean x`
meaning `x ≠ -0`; `p = 3`, two passes, every `X[i]` and `Y[i]` equal to `-0` and `a = +0`, so
that `Y` stays `-0` throughout. -/
theorem sequential_equivalence_witness :
    ((0 : Sign5) + Sign5.nz ≠ Sign5.nz) ∧
    ((0 : Sign5) ≠ Sign5.nz ∧
      (∀ x y : Sign5, x ≠ Sign5.nz → x + y ≠ Sign5.nz) ∧
      (∀ x : Sign5, x ≠ Sign5.nz → 0 + x = x)) ∧
    (saxpy_setup (fun _ => Sign5.nz) (fun _ => Sign5.nz) (fun _ => Sign5.nan) Sign5.pz 3 2 1
        (fun _ => Sign5.nan)).Y_avgs
      = (saxpy_seq (fun _ => Sign5.nz) (fun _ => Sign5.nz) (fun _ => Sign5.nan) Sign5.pz
          3 2).2 :=
  ⟨by decide,
    ⟨by decide,
      by intro x y; cases x <;> cases y <;> decide,
      by intro x; cases x <;> decide⟩,
    (sequential_equivalence (fun x : Sign5 => x ≠ Sign5.nz) (by decide)
      (by intro x y; cases x <;> cases y <;> decide)
      (by intro x; cases x <;> decide)
      (fun _ => Sign5.nz) (fun _ => Sign5.nz) (fun _ => Sign5.nan) (fun _ => Sign5.nan)
      Sign5.pz 3 2).2⟩

/-! ## Invalid configurations -/

theorem seg_empty_of_nonpos (p n k : Int) (hp : p ≤ 0) (hn : 1 ≤ n) :
    setup_end_pos p n k ≤ setup_start_pos p n k := by
  have hq : 0 ≤ (-p).tdiv n := Int.tdiv_nonneg (by omega) (by omega)
  have hneg : p.tdiv n = -((-p).tdiv n) := by
    rw [Int.neg_tdiv, neg_neg]
  have hmd := Int.tmod_add_tdiv (-p) n
  have hm0 : 0 ≤ (-p).tmod n := Int.tmod_nonneg n (by omega)
  unfold setup_end_pos setup_start_pos
  rw [hneg]
  split
  · rename_i hk
    have h1 : k * -((-p).tdiv n) = (-p).tdiv n - n * (-p).tdiv n := by
      rw [hk]
      ring
    omega
  · have h1 : (k + 1) * -((-p).tdiv n) = k * -((-p).tdiv n) - (-p).tdiv n := by ring
    omega

section InvalidConfig

variable {α : Type} [Zero α] [Add α] [Mul α] [Div α] [IntCast α]

/-- C4, as stated, fails. Called with `p = -4` (`max_iters = 1`, two workers), `saxpy_setup`
creates its two workers, runs to its end and overwrites `Y_avgs[0] = 5` with `aux / p`;
called with `max_iters = 0` (`p = 4`, two workers) it creates its two workers as well; and the
option loop of `main` lets `-n 0` and `-i 0` through. -/
theorem invalid_config_counterexample :
    ((-4 : Int) ≤ 0 ∧ (setup_args (2 : ℚ) (-4) 1 2).length = 2 ∧
      (saxpy_setup (fun _ => (1 : ℚ)) (fun _ => 0) (fun _ => 5) 2 (-4) 1 2
        (fun _ => 7)).Y_avgs 0 ≠ 5) ∧
    ((0 : Int) ≤ 0 ∧ (setup_args (2 : ℚ) 4 0 2).length = 2) ∧
    main_getopt [Opt.n 0, Opt.i 0]
      = some { seed := 1, p := 10000000, n_threads := 0, max_iters := 0 } := by
  refine ⟨⟨by decide, rfl, ?_⟩, ⟨le_refl 0, rfl⟩, by decide⟩
  show ((0 : ℚ) + 0 + 0) / ((-4 : Int) : ℚ) ≠ 5
  norm_num

/-- C4, amended. `saxpy_setup` has no rejection path: it returns nothing and checks nothing.
Called with `n_workers ≥ 1` and `p ≤ 0` or `max_iters ≤ 0` (the product
`n_workers * max_iters` being an `int`), it still fills in the arguments of its `n_workers`
workers, the row pointers `&partial_sums[i * max_iters]` being formed without overflow, and
runs them, leaves `Y` unchanged, leaves `Y_avgs` unchanged when `max_iters ≤ 0`,
and otherwise overwrites every `Y_avgs[t]`, `t < max_iters`, with `aux / p`. Nothing is said
of `n_workers ≤ 0`, where the two arrays sized by `n_threads` have no defined meaning. In the
option loop of `main` a `-p` value `≤ 0` ends the process at the `assert`. -/
theorem invalid_config_behaviour (X Y Y_avgs heap : Int → α) (a : α)
    (p max_iters n_workers : Int) (hn : 1 ≤ n_workers) (h : p ≤ 0 ∨ max_iters ≤ 0)
    (hfit : -2147483648 ≤ n_workers * max_iters ∧ n_workers * max_iters ≤ 2147483647) :
    ((setup_args a p max_iters n_workers).length = n_workers.toNat ∧ 1 ≤ n_workers.toNat) ∧
    (∀ k : Int, 0 ≤ k → k < n_workers → int_mul k max_iters = some (k * max_iters)) ∧
    (saxpy_setup X Y Y_avgs a p max_iters n_workers heap).Y = Y ∧
    (max_iters ≤ 0 → (saxpy_setup X Y Y_avgs a p max_iters n_workers heap).Y_avgs = Y_avgs) ∧
    (∀ t : Int, 0 ≤ t → t < max_iters →
      (saxpy_setup X Y Y_avgs a p max_iters n_workers heap).Y_avgs t
        = setup_aux max_iters n_workers t
            (saxpy_setup X Y Y_avgs a p max_iters n_workers heap).partial_sums / (p : α)) ∧
    (∀ (c : Config) (v : Int), v ≤ 0 → main_switch c (Opt.p v) = none) := by
  refine ⟨⟨?_, by omega⟩, ?_, ?_, ?_, ?_, ?_⟩
  · unfold setup_args
    rw [List.length_map, List.length_range]
  · intro k hk0 hk
    have hrange : -2147483648 ≤ k * max_iters ∧ k * max_iters ≤ 2147483647 := by
      rcases le_total 0 max_iters with hm | hm
      · have h1 : k * max_iters ≤ n_workers * max_iters :=
          mul_le_mul_of_nonneg_right (by omega) hm
        have h2 : 0 ≤ k * max_iters := mul_nonneg hk0 hm
        omega
      · have h1 : n_workers * max_iters ≤ k * max_iters :=
          mul_le_mul_of_nonpos_right (by omega) hm
        have h2 : k * max_iters ≤ 0 := mul_nonpos_of_nonneg_of_nonpos hk0 hm
        omega
    unfold int_mul
    rw [if_pos hrange]
  · unfold saxpy_setup saxpy_setup_sched
    rw [setup_reduce_eq]
    dsimp only
    rw [run_workers_Y_of_idle]
    intro w hw
    unfold setup_args at hw
    rw [List.mem_map] at hw
    obtain ⟨j, hj, rfl⟩ := hw
    rw [List.mem_range] at hj
    dsimp only [setup_args_at]
    rcases h with hp | hm
    · left
      exact seg_empty_of_nonpos p n_workers j hp hn
    · right
      exact hm
  · intro hm
    unfold saxpy_setup saxpy_setup_sched
    rw [setup_reduce_eq]
    dsimp only
    rw [run_workers_Y_avgs]
    funext t
    have : ¬ (0 ≤ t ∧ t < max_iters) := by omega
    rw [if_neg this]
  · intro t ht0 ht
    rw [setup_partial_sums_eq]
    unfold saxpy_setup saxpy_setup_sched
    rw [setup_reduce_eq]
    dsimp only
    rw [if_pos ⟨ht0, ht⟩]
  · intro c v hv
    have hnot : ¬ (0 < v ∧ v ≤ 2147483647) := by omega
    simp only [main_switch, if_neg hnot]

end InvalidConfig

/-- Witness for C4 as amended: `p = -4`, one pass, two workers. -/
theorem invalid_config_behaviour_witness :
    ((1 : Int) ≤ 2 ∧ ((-4 : Int) ≤ 0 ∨ (1 : Int) ≤ 0) ∧
      (-2147483648 ≤ (2 : Int) * 1 ∧ (2 : Int) * 1 ≤ 2147483647)) ∧
    (setup_args (2 : ℚ) (-4) 1 2).length = (2 : Int).toNat ∧
    (saxpy_setup (fun _ => (1 : ℚ)) (fun _ => 3) (fun _ => 5) 2 (-4) 1 2 (fun _ => 7)).Y
      = fun _ => 3 :=
  ⟨by decide,
    (invalid_config_behaviour (fun _ => (1 : ℚ)) (fun _ => 3) (fun _ => 5) (fun _ => 7)
      2 (-4) 1 2 (by decide) (by decide) (by decide)).1.1,
    (invalid_config_behaviour (fun _ => (1 : ℚ)) (fun _ => 3) (fun _ => 5) (fun _ => 7)
      2 (-4) 1 2 (by decide) (by decide) (by decide)).2.2.1⟩

end Saxpy
